import Mathlib

/-!
Shallow embedding of the core of the QRCodeSharer-Server repository:
the `RateLimiter` class of `src/app/rate_limiter.py` (the admission
guard) and the `DatabaseWriteQueue` class of
`src/app/database/engine.py` (the write-behind batching queue).

Modeling conventions:
- `time.time()` timestamps are modeled as integer seconds (`ℤ`); every
  comparison in the source is carried over verbatim.  With integer
  timestamps Python's `int()` truncation in `get_block_info` is the
  identity.
- Python dictionaries are insertion-ordered association lists
  (assignment updates an existing key in place, otherwise appends;
  deletion keeps the order of the rest), matching CPython semantics.
- Python's `sorted` (a stable sort) is modeled by Mathlib's stable
  `List.insertionSort`.
- `defaultdict(int)` (`failed_attempts`) is a total function with
  default `0`; `last_failed_time` maps to `Option` since the source
  tests key membership.
- Each Python method reads the clock once per call; the model passes
  that instant as an explicit `now` argument.
-/

set_option maxRecDepth 4000

/-- Client IP addresses, the keys of the admission-guard mappings. -/
abbrev Ip := String

/-- Python dict lookup: `d[k]` when `k in d`, else `none`. -/
def dictGet (d : List (Ip × ℤ)) (k : Ip) : Option ℤ :=
  (d.find? (fun p => p.1 == k)).map Prod.snd

/-- Python dict assignment `d[k] = v`: update in place when the key is
present (keeping its position), otherwise append at the tail. -/
def dictSet (d : List (Ip × ℤ)) (k : Ip) (v : ℤ) : List (Ip × ℤ) :=
  if d.any (fun p => p.1 == k) then
    d.map (fun p => if p.1 == k then (k, v) else p)
  else d ++ [(k, v)]

/-- Python dict deletion `del d[k]`: drop the pair(s) with key `k`,
keeping the order of the remaining entries. -/
def dictDel (d : List (Ip × ℤ)) (k : Ip) : List (Ip × ℤ) :=
  d.filter (fun p => !(p.1 == k))

/-- Constructor parameters of `RateLimiter.__init__`
(src/app/rate_limiter.py lines 12-26). -/
structure RLConfig where
  max_failed_attempts : ℕ
  block_duration : ℤ
  max_blocked_ips : ℕ

/-- `self.cleanup_interval = 60`, hardcoded in `__init__` (line 28). -/
def cleanup_interval : ℤ := 60

/-- The mutable state of a `RateLimiter` instance. -/
structure RLState where
  failed_attempts : Ip → ℕ
  last_failed_time : Ip → Option ℤ
  blocked_ips : List (Ip × ℤ)
  last_cleanup : ℤ

/-- State set up by `RateLimiter.__init__` when constructed at time
`t0` (`self.last_cleanup = time.time()`). -/
def initState (t0 : ℤ) : RLState :=
  { failed_attempts := fun _ => 0
    last_failed_time := fun _ => none
    blocked_ips := []
    last_cleanup := t0 }

/-- The sort key of `cleanup_expired`'s capacity sweep:
`sorted(self.blocked_ips.items(), key=lambda x: x[1])`. -/
def byUnblockTime (p q : Ip × ℤ) : Prop := p.2 ≤ q.2

instance : DecidableRel byUnblockTime :=
  fun p q => inferInstanceAs (Decidable (p.2 ≤ q.2))

instance : IsTotal (Ip × ℤ) byUnblockTime :=
  ⟨fun p q => le_total p.2 q.2⟩

instance : IsTrans (Ip × ℤ) byUnblockTime :=
  ⟨fun _ _ _ h h' => le_trans h h'⟩

/-- `RateLimiter.cleanup_expired` (src/app/rate_limiter.py lines
39-68).  Rate-limited to one sweep per `cleanup_interval`; a sweep
first deletes every expired block entry (resetting that IP's failure
count and last-failure time), then, if the blacklist still exceeds
`max_blocked_ips`, deletes the entries with the smallest
`unblock_time` until the bound is met. -/
def cleanup_expired (cfg : RLConfig) (s : RLState) (now : ℤ) : RLState :=
  if now - s.last_cleanup < cleanup_interval then s
  else
    let expired_ips := (s.blocked_ips.filter (fun p => p.2 ≤ now)).map Prod.fst
    let blocked1 := expired_ips.foldl dictDel s.blocked_ips
    let fa1 : Ip → ℕ := fun ip => if ip ∈ expired_ips then 0 else s.failed_attempts ip
    let lft1 : Ip → Option ℤ :=
      fun ip => if ip ∈ expired_ips then none else s.last_failed_time ip
    let blocked2 :=
      if blocked1.length > cfg.max_blocked_ips then
        let oldest := (List.insertionSort byUnblockTime blocked1).take
          (blocked1.length - cfg.max_blocked_ips)
        (oldest.map Prod.fst).foldl dictDel blocked1
      else blocked1
    { failed_attempts := fa1
      last_failed_time := lft1
      blocked_ips := blocked2
      last_cleanup := now }

/-- `RateLimiter.is_blocked` (src/app/rate_limiter.py lines 70-82).
Returns the updated state together with the boolean answer. -/
def is_blocked (cfg : RLConfig) (s : RLState) (ip : Ip) (now : ℤ) :
    RLState × Bool :=
  let s1 := cleanup_expired cfg s now
  match dictGet s1.blocked_ips ip with
  | some ut =>
    if now < ut then (s1, true)
    else
      ({ s1 with
          blocked_ips := dictDel s1.blocked_ips ip
          failed_attempts := fun j => if j = ip then 0 else s1.failed_attempts j
          last_failed_time := fun j => if j = ip then none else s1.last_failed_time j },
        false)
  | none => (s1, false)

/-- `RateLimiter.record_failed_attempt` (src/app/rate_limiter.py lines
84-99).  Returns the updated state and whether the call blocked the
IP (`True` exactly when the new count reaches `max_failed_attempts`). -/
def record_failed_attempt (cfg : RLConfig) (s : RLState) (ip : Ip) (now : ℤ) :
    RLState × Bool :=
  let fa0 : Ip → ℕ :=
    match s.last_failed_time ip with
    | some t =>
      if now - t > cfg.block_duration then
        fun j => if j = ip then 0 else s.failed_attempts j
      else s.failed_attempts
    | none => s.failed_attempts
  let newCount := fa0 ip + 1
  let fa1 : Ip → ℕ := fun j => if j = ip then newCount else fa0 j
  let lft1 : Ip → Option ℤ := fun j => if j = ip then some now else s.last_failed_time j
  if newCount ≥ cfg.max_failed_attempts then
    ({ s with
        failed_attempts := fa1
        last_failed_time := lft1
        blocked_ips := dictSet s.blocked_ips ip (now + cfg.block_duration) },
      true)
  else
    ({ s with failed_attempts := fa1, last_failed_time := lft1 }, false)

/-- Result of `RateLimiter.get_block_info` (the `unblock_time` ISO
string of the Python dict is presentation only and omitted). -/
structure BlockInfo where
  blocked : Bool
  remaining_seconds : ℤ
deriving DecidableEq

/-- `RateLimiter.get_block_info` (src/app/rate_limiter.py lines
101-111): a pure read; reports `blocked = True` whenever an entry is
present, with `remaining_seconds = max(0, unblock_time - now)`. -/
def get_block_info (s : RLState) (ip : Ip) (now : ℤ) : BlockInfo :=
  match dictGet s.blocked_ips ip with
  | some ut => { blocked := true, remaining_seconds := max 0 (ut - now) }
  | none => { blocked := false, remaining_seconds := 0 }

/-- Folds a sequence of `record_failed_attempt` insertions (each an IP
together with the call's timestamp) over a starting state. -/
def runRecords (cfg : RLConfig) (s : RLState) : List (Ip × ℤ) → RLState
  | [] => s
  | e :: es => runRecords cfg (record_failed_attempt cfg s e.1 e.2).1 es

/-- Constructor parameters of `DatabaseWriteQueue.__init__`
(src/app/database/engine.py lines 41-54). -/
structure WQConfig where
  batch_interval : ℚ
  batch_size : ℕ

/-- A queued write operation, identified by its payload.  The service
only ever enqueues `merge` (upsert) operations
(src/app/app.py line 92), the single operation kind in scope. -/
abbrev Op := ℕ

/-- State of a `DatabaseWriteQueue` together with its observable
effects: `committed` records each successful commit call of the
persistence sink (in order, one list per commit), `errors` counts the
reported (logged) commit failures. -/
structure WQState where
  queue : List Op
  flush_event : Bool
  running : Bool
  committed : List (List Op)
  errors : ℕ
deriving DecidableEq

/-- The state of a freshly constructed `DatabaseWriteQueue`. -/
def WQState.init : WQState :=
  { queue := [], flush_event := false, running := false, committed := [], errors := 0 }

/-- `DatabaseWriteQueue.add_operation` (src/app/database/engine.py
lines 77-88): put the operation at the tail of the queue, then set the
flush event when the queue size has reached `batch_size`. -/
def add_operation (cfg : WQConfig) (s : WQState) (op : Op) : WQState :=
  let s1 := { s with queue := s.queue ++ [op] }
  if s1.queue.length ≥ cfg.batch_size then { s1 with flush_event := true } else s1

/-- Submit a list of operations back-to-back. -/
def submitAll (cfg : WQConfig) (s : WQState) (ops : List Op) : WQState :=
  ops.foldl (add_operation cfg) s

/-- `DatabaseWriteQueue._flush` (src/app/database/engine.py lines
103-143).  `commit_fails` is the sink's behavior for this commit: on
failure the dequeued batch is dropped and the failure logged
(`errors`); on success the sink records the batch (`committed`). -/
def _flush (cfg : WQConfig) (commit_fails : Bool) (s : WQState) : WQState :=
  if s.queue.isEmpty then s
  else
    let operations := s.queue.take cfg.batch_size
    let rest := s.queue.drop cfg.batch_size
    if operations.isEmpty then s
    else if commit_fails then { s with queue := rest, errors := s.errors + 1 }
    else { s with queue := rest, committed := s.committed ++ [operations] }

/-- One iteration of the worker loop `DatabaseWriteQueue._process_queue`
(src/app/database/engine.py lines 90-101): `flush_event.wait` returns
(clearing the event when it was set), then `_flush` runs; `fail` is
whether the sink fails this iteration's commit. -/
def workerStep (cfg : WQConfig) (fail : Bool) (s : WQState) : WQState :=
  _flush cfg fail { s with flush_event := false }

/-- The worker loop: one `workerStep` per iteration, given the sink
failure outcome of each iteration; the loop exits when `running` is
cleared, i.e. after finitely many iterations. -/
def _process_queue (cfg : WQConfig) : List Bool → WQState → WQState
  | [], s => s
  | f :: fs, s => _process_queue cfg fs (workerStep cfg f s)

/-- `DatabaseWriteQueue.stop` (src/app/database/engine.py lines
68-75): clear `running`, join the worker, then run one final `_flush`
(whose commit the sink fails iff `fail`). -/
def stop (cfg : WQConfig) (fail : Bool) (s : WQState) : WQState :=
  _flush cfg fail { s with running := false }

/-- The configuration of the repository's global limiter instance:
`RateLimiter(max_failed_attempts=5, block_duration=6000, max_blocked_ips=1000)`
(src/app/rate_limiter.py lines 115-117). -/
def rlCfgSrc : RLConfig := ⟨5, 6000, 1000⟩

/-- A small limiter configuration (`max_failed_attempts=1`,
`block_duration=100`, `max_blocked_ips=1`), used to exhibit capacity
overflow with few insertions. -/
def rlCfgSmall : RLConfig := ⟨1, 100, 1⟩

/-- The configuration of the repository's global queue instance:
`DatabaseWriteQueue(batch_interval=0.5, batch_size=30)`
(src/app/database/engine.py line 147). -/
def wqCfgSrc : WQConfig := ⟨1/2, 30⟩

/-- The concrete IP used by the spec's scenarios. -/
def ip0 : Ip := "1.2.3.4"

/-- Concrete IP `"a"`. -/
def ipA : Ip := "a"

/-- Concrete IP `"b"`. -/
def ipB : Ip := "b"

/-- Concrete IP `"c"`. -/
def ipC : Ip := "c"

/-- A concrete limiter state for exercising a full sweep: entry `"a"`
expired (unblock 50), entries `"b"`, `"c"` live until 101 and 102,
last sweep at time 0. -/
def c3state : RLState :=
  { failed_attempts := fun _ => 1
    last_failed_time := fun _ => some 1
    blocked_ips := [(ipA, 50), (ipB, 101), (ipC, 102)]
    last_cleanup := 0 }

/-- A limiter state reached from a fresh limiter (constructed at time
0, `max_failed_attempts = 1`) by two failed attempts: IP `"a"` at time
1 and IP `"b"` at time 2, leaving `blocked_ips = [(a,101), (b,102)]`
while `last_cleanup` is still 0. -/
def twoBlockedState : RLState :=
  runRecords rlCfgSmall (initState 0) [(ipA, 1), (ipB, 2)]

/-- A limiter state reached from a fresh limiter with the repository's
configuration (constructed at time 0) by five failed attempts of IP
`"1.2.3.4"` at time 0, leaving it blocked until time 6000. -/
def fiveFailState : RLState :=
  runRecords rlCfgSrc (initState 0) (List.replicate 5 (ip0, 0))

/-- The C1 scenario: 61 operations submitted back-to-back into a fresh
queue with the repository's configuration (`batch_size = 30`); the
worker performs its one in-progress iteration (sink healthy), then
`stop()` runs, with a healthy sink for the final flush as well. -/
def c1run : WQState :=
  stop wqCfgSrc false
    (workerStep wqCfgSrc false (submitAll wqCfgSrc WQState.init (List.range 61)))

/-- The list of expired block-entry keys collected by a sweep of
`cleanup_expired` (the `expired_ips` comprehension, lines 50-54). -/
def expiredIps (s : RLState) (now : ℤ) : List Ip :=
  (s.blocked_ips.filter (fun p => p.2 ≤ now)).map Prod.fst

/-- The capacity phase of the sweep (src/app/rate_limiter.py lines
61-68): when the dictionary still exceeds `max_blocked_ips`, sort its
items ascending by `unblock_time` (stable, like Python's `sorted`),
take the first `len - max_blocked_ips` of them and delete those keys. -/
def capacityPhase (cfg : RLConfig) (blocked1 : List (Ip × ℤ)) : List (Ip × ℤ) :=
  if blocked1.length > cfg.max_blocked_ips then
    (((List.insertionSort byUnblockTime blocked1).take
        (blocked1.length - cfg.max_blocked_ips)).map Prod.fst).foldl dictDel blocked1
  else blocked1

/-- The `blocked_ips` dictionary a `cleanup_expired` sweep leaves:
expired entries deleted, then the capacity phase. -/
def sweepBlocked (cfg : RLConfig) (s : RLState) (now : ℤ) : List (Ip × ℤ) :=
  capacityPhase cfg ((expiredIps s now).foldl dictDel s.blocked_ips)

/-- The block entries that survive the expiry phase of a sweep at
time `now`: those with `now < unblock_time`, in original order. -/
def survivors (s : RLState) (now : ℤ) : List (Ip × ℤ) :=
  s.blocked_ips.filter (fun p => !(decide (p.2 ≤ now)))

/-- The full state a `cleanup_expired` sweep leaves behind. -/
def sweepState (cfg : RLConfig) (s : RLState) (now : ℤ) : RLState :=
  { failed_attempts := fun ip => if ip ∈ expiredIps s now then 0 else s.failed_attempts ip
    last_failed_time := fun ip => if ip ∈ expiredIps s now then none else s.last_failed_time ip
    blocked_ips := sweepBlocked cfg s now
    last_cleanup := now }


/-- A small queue configuration and a mid-run queue state used to
instantiate the C4 theorem at a concrete input. -/
def wqCfg2 : WQConfig := ⟨1/2, 2⟩

/-- Concrete queue state: three pending operations, worker running. -/
def c4state : WQState := ⟨[10, 11, 12], false, true, [], 0⟩

/-- The failure count `record_failed_attempt` starts from after its
decay check: 0 when the previous failure of `ip` lies more than
`block_duration` before `now`, the current count otherwise. -/
def recPrev (cfg : RLConfig) (s : RLState) (ip : Ip) (now : ℤ) : ℕ :=
  match s.last_failed_time ip with
  | some t => if now - t > cfg.block_duration then 0 else s.failed_attempts ip
  | none => s.failed_attempts ip

/-! ## Association-list (Python dict) lemmas -/

theorem dictGet_eq_none_iff {d : List (Ip × ℤ)} {k : Ip} :
    dictGet d k = none ↔ ∀ p ∈ d, p.1 ≠ k := by
  simp [dictGet, List.find?_eq_none]

theorem mem_of_dictGet_eq_some {d : List (Ip × ℤ)} {k : Ip} {v : ℤ}
    (h : dictGet d k = some v) : (k, v) ∈ d := by
  unfold dictGet at h
  rcases Option.map_eq_some'.mp h with ⟨p, hfind, hv⟩
  have hp := List.find?_some hfind
  have hmem := List.mem_of_find?_eq_some hfind
  have hk : p.1 = k := by simpa using hp
  have : p = (k, v) := by
    cases p
    simp_all
  simpa [this] using hmem

theorem mem_dictSet {d : List (Ip × ℤ)} {k : Ip} {v : ℤ} {p : Ip × ℤ}
    (h : p ∈ dictSet d k v) : p ∈ d ∨ p.2 = v := by
  unfold dictSet at h
  split at h
  · rcases List.mem_map.mp h with ⟨q, hq, hpq⟩
    by_cases hqk : (q.1 == k) = true
    · rw [if_pos hqk] at hpq
      right
      rw [← hpq]
    · rw [if_neg hqk] at hpq
      exact Or.inl (hpq ▸ hq)
  · rcases List.mem_append.mp h with h | h
    · exact Or.inl h
    · right
      have : p = (k, v) := by simpa using h
      rw [this]

theorem dictSet_keys_nodup {d : List (Ip × ℤ)} {k : Ip} {v : ℤ}
    (h : (d.map Prod.fst).Nodup) : ((dictSet d k v).map Prod.fst).Nodup := by
  unfold dictSet
  split
  · have heq : (d.map (fun p => if p.1 == k then (k, v) else p)).map Prod.fst
        = d.map Prod.fst := by
      rw [List.map_map]
      refine List.map_congr_left ?_
      intro p _
      by_cases hpk : (p.1 == k) = true
      · simp only [Function.comp_apply, if_pos hpk]
        exact (beq_iff_eq.mp hpk).symm
      · simp only [Function.comp_apply, if_neg hpk]
    rw [heq]
    exact h
  · rename_i hnone
    have hk : k ∉ d.map Prod.fst := by
      intro hmem
      rcases List.mem_map.mp hmem with ⟨p, hp, hpk⟩
      exact hnone (List.any_eq_true.mpr ⟨p, hp, by simp [hpk]⟩)
    rw [List.map_append]
    rw [List.nodup_append]
    refine ⟨h, by simp, ?_⟩
    intro a ha hamem
    have : a = k := by simpa using hamem
    exact hk (this ▸ ha)

theorem dictGet_dictSet_self {d : List (Ip × ℤ)} {k : Ip} {v : ℤ}
    (h : dictGet d k = none) : dictGet (dictSet d k v) k = some v := by
  have hall : ∀ p ∈ d, p.1 ≠ k := dictGet_eq_none_iff.mp h
  have hany : d.any (fun p => p.1 == k) = false := by
    simp only [List.any_eq_false]
    intro p hp
    simpa using hall p hp
  unfold dictSet
  rw [if_neg (by simp [hany])]
  unfold dictGet
  rw [List.find?_append]
  have : d.find? (fun p => p.1 == k) = none := by
    rw [List.find?_eq_none]
    intro p hp
    simpa using hall p hp
  simp [this]

theorem foldl_dictDel_eq_filter (ks : List Ip) (d : List (Ip × ℤ)) :
    ks.foldl dictDel d = d.filter (fun p => decide (p.1 ∉ ks)) := by
  induction ks generalizing d with
  | nil => simp
  | cons k ks ih =>
    simp only [List.foldl_cons]
    rw [ih, dictDel, List.filter_filter]
    refine List.filter_congr ?_
    intro p _
    by_cases h1 : p.1 = k <;> by_cases h2 : p.1 ∈ ks <;> simp [h1, h2]

theorem key_inj {d : List (Ip × ℤ)} (hkeys : (d.map Prod.fst).Nodup)
    {p q : Ip × ℤ} (hp : p ∈ d) (hq : q ∈ d) (h : p.1 = q.1) : p = q :=
  List.inj_on_of_nodup_map hkeys hp hq h

/-! ## Claim theorems -/

/-- C1: the claim says that after `stop()` the Persistence Sink has
received every one of the N operations submitted before `stop`, even
when more than `batch_size` operations are still queued when `stop()`
runs its final flush.  The code violates this: `stop` runs `_flush`
once, and `_flush` dequeues at most `batch_size` operations, so the
excess stays in the queue, never committed.  Failing run, evaluated on
the embedding: 61 operations submitted back-to-back (`batch_size =
30`), the worker completes its one in-progress iteration (committing
operations 0-29), `stop()` joins it and runs the final flush
(committing 30-59); operation 60 is left behind: the sink received 60
of the 61 operations and the last one is lost. -/
theorem c1_stop_final_flush_loses_excess_ops :
    c1run.committed.flatten = List.range 60 ∧
    c1run.committed = [List.range 30, List.drop 30 (List.range 60)] ∧
    c1run.queue = [60] := by decide

/-- C2, counterexample: the claim says a call to `cleanup_expired()`
always leaves `|blocked_ips| ≤ max_blocked_ips`, but the method first
returns without doing anything when less than `cleanup_interval` (60s)
has passed since the last sweep (src/app/rate_limiter.py lines 44-45).
Reachable witness with `max_blocked_ips = 1`: two distinct IPs blocked
at times 1 and 2, `cleanup_expired` called at time 3 — it is
rate-limited away and both entries remain, so `|blocked_ips| = 2 > 1`
right after the call returns. -/
theorem c2_rate_limited_cleanup_exceeds_bound :
    (cleanup_expired rlCfgSmall twoBlockedState 3).blocked_ips.length = 2 ∧
    rlCfgSmall.max_blocked_ips = 1 := by decide

/-- C7, counterexample: the claim says `is_blocked(ip)` returns true
exactly when a block entry for `ip` exists with `unblock_time` in the
future.  But `is_blocked` first runs the cleanup sweep, whose capacity
eviction can delete an entry whose `unblock_time` is still in the
future.  Reachable witness (`max_failed_attempts = 1`,
`block_duration = 100`, `max_blocked_ips = 1`): IPs a and b blocked
until 101 and 102; at time 61 the sweep runs, neither entry is
expired, the capacity bound 1 is exceeded, and a — the entry with the
smallest remaining time — is evicted, so `is_blocked(a)` answers false
although a's entry had `unblock_time = 101 > 61` when the call
started. -/
theorem c7_future_entry_evicted_counterexample :
    dictGet twoBlockedState.blocked_ips ipA = some 101 ∧
    ((61:ℤ) < 101) ∧
    (is_blocked rlCfgSmall twoBlockedState ipA 61).2 = false := by decide

/-- C9: in the reachable state where `"1.2.3.4"` was blocked until
time 6000 and time 7000 has arrived without any cleanup having
removed the stale entry, `get_block_info` still reports `blocked =
True` (with `remaining_seconds = max(0, ...) = 0`) because it only
tests key presence, while `is_blocked` on the very same state answers
false (removing the entry).  Evaluated on the embedding. -/
theorem c9_get_block_info_expired_entry :
    dictGet fiveFailState.blocked_ips ip0 = some 6000 ∧
    ((6000:ℤ) ≤ 7000) ∧
    get_block_info fiveFailState ip0 7000 = ⟨true, 0⟩ ∧
    (is_blocked rlCfgSrc fiveFailState ip0 7000).2 = false := by decide

/-- C8: `add_operation` appends the operation at the tail of the
queue, performs no flush itself (`committed` and `errors` untouched),
and signals the flush event exactly when the resulting queue length
has reached `batch_size` (the event stays set if it already was).
Concretely, with the repository's `batch_size = 30`: 29 back-to-back
submissions leave the event clear, the 30th sets it, and 45
submissions followed by the worker's two iterations (the immediate
triggered one and the next tick) produce a commit of size 30 followed
by a commit of size 15, draining the queue.  (Queue timing —
"never blocks", "within one `batch_interval` tick" — is abstracted
into the iteration order of the worker model.) -/
theorem c8_add_operation_signal_spec (cfg : WQConfig) (s : WQState) (op : Op) :
    (add_operation cfg s op).queue = s.queue ++ [op] ∧
    (add_operation cfg s op).committed = s.committed ∧
    (add_operation cfg s op).errors = s.errors ∧
    (add_operation cfg s op).running = s.running ∧
    ((add_operation cfg s op).flush_event
      = (s.flush_event || decide (cfg.batch_size ≤ s.queue.length + 1))) ∧
    (s.flush_event = false →
      ((add_operation cfg s op).flush_event = true ↔ cfg.batch_size ≤ s.queue.length + 1)) ∧
    (submitAll wqCfgSrc WQState.init (List.range 29)).flush_event = false ∧
    (submitAll wqCfgSrc WQState.init (List.range 30)).flush_event = true ∧
    ((workerStep wqCfgSrc false (workerStep wqCfgSrc false
        (submitAll wqCfgSrc WQState.init (List.range 45)))).committed
      = [List.range 30, List.drop 30 (List.range 45)]) ∧
    (List.drop 30 (List.range 45)).length = 15 ∧
    (workerStep wqCfgSrc false (workerStep wqCfgSrc false
        (submitAll wqCfgSrc WQState.init (List.range 45)))).queue = [] := by
  have hq : (s.queue ++ [op]).length = s.queue.length + 1 := by simp
  unfold add_operation
  by_cases hc : (s.queue ++ [op]).length ≥ cfg.batch_size
  · rw [if_pos hc]
    rw [hq] at hc
    refine ⟨rfl, rfl, rfl, rfl, ?_, ?_, by decide, by decide, by decide, by decide, by decide⟩
    · simp [decide_eq_true hc]
    · intro _
      simp [hc]
  · rw [if_neg hc]
    rw [hq] at hc
    refine ⟨rfl, rfl, rfl, rfl, ?_, ?_, by decide, by decide, by decide, by decide, by decide⟩
    · simp [decide_eq_false hc]
    · intro hfe
      simp [hfe, hc]

/-- C4: when the sink fails a flush's commit, the whole dequeued batch
is discarded: the resulting state has exactly the post-dequeue queue
(the first `batch_size` operations removed, nothing requeued), the
sink's committed history unchanged, and the failure reported (`errors`
incremented) — and the worker loop survives (the exception is caught
inside `_flush`), its next iteration proceeding normally: the second
conjunct is the loop unfolding, and the third shows the iteration
after a failed one commits the next batch as usual. -/
theorem c4_commit_failure_discards_batch (cfg : WQConfig) (fs : List Bool)
    (s : WQState) (hbs : 0 < cfg.batch_size) (hne : s.queue ≠ []) :
    _flush cfg true s
      = { s with queue := s.queue.drop cfg.batch_size, errors := s.errors + 1 } ∧
    _process_queue cfg (true :: fs) s = _process_queue cfg fs (workerStep cfg true s) ∧
    (workerStep cfg false (workerStep cfg true s)).committed
      = s.committed ++ (if (s.queue.drop cfg.batch_size).isEmpty then []
          else [(s.queue.drop cfg.batch_size).take cfg.batch_size]) := by
  have hflush : ∀ t : WQState, t.queue ≠ [] → _flush cfg true t
      = { t with queue := t.queue.drop cfg.batch_size, errors := t.errors + 1 } := by
    intro t ht
    unfold _flush
    rw [if_neg (by simpa using ht)]
    rw [if_neg (by simp [List.take_eq_nil_iff, ht]; omega)]
    rfl
  refine ⟨hflush s hne, rfl, ?_⟩
  have h1 : workerStep cfg true s
      = { s with
          flush_event := false
          queue := s.queue.drop cfg.batch_size
          errors := s.errors + 1 } := by
    unfold workerStep
    rw [hflush { s with flush_event := false } (by simpa using hne)]
  rw [h1]
  unfold workerStep _flush
  by_cases hemp : (s.queue.drop cfg.batch_size).isEmpty
  · rw [if_pos (by simpa using hemp)]
    simp [hemp]
  · rw [if_neg (by simpa using hemp)]
    rw [if_neg (by
      simp only [List.isEmpty_iff] at hemp
      simp [List.take_eq_nil_iff, hemp]
      omega)]
    simp [hemp]

/-- Witness for C4 at `batch_size = 2` and pending queue `[10,11,12]`:
the failed flush drops the dequeued batch `[10,11]` (queue `[12]`,
one error logged, nothing committed), and the next iteration commits
`[12]`. -/
theorem c4_commit_failure_discards_batch_witness :
    (0 < wqCfg2.batch_size ∧ c4state.queue ≠ []) ∧
    (_flush wqCfg2 true c4state
      = { c4state with
          queue := c4state.queue.drop wqCfg2.batch_size
          errors := c4state.errors + 1 } ∧
     _process_queue wqCfg2 (true :: []) c4state
      = _process_queue wqCfg2 [] (workerStep wqCfg2 true c4state) ∧
     (workerStep wqCfg2 false (workerStep wqCfg2 true c4state)).committed
      = c4state.committed ++ (if (c4state.queue.drop wqCfg2.batch_size).isEmpty then []
          else [(c4state.queue.drop wqCfg2.batch_size).take wqCfg2.batch_size])) :=
  ⟨⟨by decide, by decide⟩,
    c4_commit_failure_discards_batch wqCfg2 [] c4state (by decide) (by decide)⟩

/-- Closed form of `record_failed_attempt`: the count of `ip` becomes
`recPrev + 1`, its last-failure time `now`, other IPs untouched; a
block entry `now + block_duration` is written and `True` returned
exactly when the new count reaches `max_failed_attempts`. -/
theorem record_failed_attempt_eq (cfg : RLConfig) (s : RLState) (ip : Ip) (now : ℤ) :
    record_failed_attempt cfg s ip now =
      ({ s with
          failed_attempts := fun j =>
            if j = ip then recPrev cfg s ip now + 1 else s.failed_attempts j
          last_failed_time := fun j =>
            if j = ip then some now else s.last_failed_time j
          blocked_ips :=
            if cfg.max_failed_attempts ≤ recPrev cfg s ip now + 1 then
              dictSet s.blocked_ips ip (now + cfg.block_duration)
            else s.blocked_ips },
        decide (cfg.max_failed_attempts ≤ recPrev cfg s ip now + 1)) := by
  unfold record_failed_attempt recPrev
  cases h : s.last_failed_time ip with
  | none =>
    simp only [h, ge_iff_le]
    by_cases hth : cfg.max_failed_attempts ≤ s.failed_attempts ip + 1
    · simp only [if_pos hth, decide_eq_true hth]
    · simp only [if_neg hth, decide_eq_false hth]
  | some t =>
    simp only [h, ge_iff_le]
    by_cases ht : now - t > cfg.block_duration
    · simp only [if_pos ht, eq_self_iff_true, if_true]
      have hfun : (fun j => if j = ip then 0 + 1 else if j = ip then 0 else s.failed_attempts j)
          = fun j => if j = ip then 0 + 1 else s.failed_attempts j := by
        funext j
        by_cases hj : j = ip <;> simp [hj]
      simp only [hfun]
      by_cases hth : cfg.max_failed_attempts ≤ 0 + 1
      · simp only [if_pos hth, decide_eq_true hth]
      · simp only [if_neg hth, decide_eq_false hth]
    · simp only [if_neg ht]
      by_cases hth : cfg.max_failed_attempts ≤ s.failed_attempts ip + 1
      · simp only [if_pos hth, decide_eq_true hth]
      · simp only [if_neg hth, decide_eq_false hth]

/-- `recPrev` when `ip` has a recorded last failure. -/
theorem recPrev_some (cfg : RLConfig) (s : RLState) (ip : Ip) (now t : ℤ)
    (h : s.last_failed_time ip = some t) :
    recPrev cfg s ip now
      = if now - t > cfg.block_duration then 0 else s.failed_attempts ip := by
  unfold recPrev
  rw [h]

/-- `recPrev` when `ip` has no recorded last failure. -/
theorem recPrev_none (cfg : RLConfig) (s : RLState) (ip : Ip) (now : ℤ)
    (h : s.last_failed_time ip = none) :
    recPrev cfg s ip now = s.failed_attempts ip := by
  unfold recPrev
  rw [h]

/-- C6: starting from a state that is Clean for `ip` (zero count, no
last-failure record, no block entry) and any `max_failed_attempts ≥
2`, two `record_failed_attempt` calls spaced more than
`block_duration` apart both return "not blocked"; the second call
resets the count before incrementing (so the count after it is 1, not
2), and no block entry for `ip` is created by the two calls. -/
theorem c6_spaced_failures_never_block (cfg : RLConfig) (s : RLState) (ip : Ip)
    (t1 t2 : ℤ) (hmax : 2 ≤ cfg.max_failed_attempts)
    (hfa : s.failed_attempts ip = 0) (hlft : s.last_failed_time ip = none)
    (hblk : dictGet s.blocked_ips ip = none)
    (hspace : cfg.block_duration < t2 - t1) :
    (record_failed_attempt cfg s ip t1).2 = false ∧
    (record_failed_attempt cfg s ip t1).1.failed_attempts ip = 1 ∧
    (record_failed_attempt cfg (record_failed_attempt cfg s ip t1).1 ip t2).2 = false ∧
    (record_failed_attempt cfg
        (record_failed_attempt cfg s ip t1).1 ip t2).1.failed_attempts ip = 1 ∧
    dictGet (record_failed_attempt cfg
        (record_failed_attempt cfg s ip t1).1 ip t2).1.blocked_ips ip = none := by
  have hp1 : recPrev cfg s ip t1 = 0 := (recPrev_none cfg s ip t1 hlft).trans hfa
  rw [record_failed_attempt_eq cfg s ip t1, hp1]
  have hlt1 : ¬ cfg.max_failed_attempts ≤ 0 + 1 := by omega
  rw [if_neg hlt1, decide_eq_false hlt1]
  refine ⟨rfl, by simp, ?_⟩
  rw [record_failed_attempt_eq]
  have hp2 : recPrev cfg
      ({ s with
          failed_attempts := fun j => if j = ip then 0 + 1 else s.failed_attempts j
          last_failed_time := fun j => if j = ip then some t1 else s.last_failed_time j })
      ip t2 = 0 := by
    rw [recPrev_some cfg _ ip t2 t1 (by simp), if_pos hspace]
  rw [hp2, if_neg hlt1, decide_eq_false hlt1]
  refine ⟨rfl, by simp, by simpa using hblk⟩

/-- Witness for C6: repository configuration, fresh limiter, failures
of `"1.2.3.4"` at times 10 and 6011 (6001 > 6000 apart). -/
theorem c6_spaced_failures_never_block_witness :
    (2 ≤ rlCfgSrc.max_failed_attempts ∧
     (initState 0).failed_attempts ip0 = 0 ∧
     (initState 0).last_failed_time ip0 = none ∧
     dictGet (initState 0).blocked_ips ip0 = none ∧
     rlCfgSrc.block_duration < (6011:ℤ) - 10) ∧
    ((record_failed_attempt rlCfgSrc (initState 0) ip0 10).2 = false ∧
     (record_failed_attempt rlCfgSrc (initState 0) ip0 10).1.failed_attempts ip0 = 1 ∧
     (record_failed_attempt rlCfgSrc
        (record_failed_attempt rlCfgSrc (initState 0) ip0 10).1 ip0 6011).2 = false ∧
     (record_failed_attempt rlCfgSrc
        (record_failed_attempt rlCfgSrc (initState 0) ip0 10).1 ip0 6011).1.failed_attempts ip0 = 1 ∧
     dictGet (record_failed_attempt rlCfgSrc
        (record_failed_attempt rlCfgSrc (initState 0) ip0 10).1 ip0 6011).1.blocked_ips ip0 = none) :=
  ⟨⟨by decide, by decide, by decide, by decide, by decide⟩,
    c6_spaced_failures_never_block rlCfgSrc (initState 0) ip0 10 6011
      (by decide) (by decide) (by decide) (by decide) (by decide)⟩

/-- Unfolding of a `cleanup_expired` call that performs its sweep
(at least `cleanup_interval` since the last one). -/
theorem cleanup_expired_sweep (cfg : RLConfig) (s : RLState) (now : ℤ)
    (h : ¬ now - s.last_cleanup < cleanup_interval) :
    cleanup_expired cfg s now = sweepState cfg s now := by
  unfold cleanup_expired sweepState sweepBlocked capacityPhase expiredIps
  rw [if_neg h]

theorem mem_expiredIps {s : RLState} {now : ℤ} {ip : Ip} :
    ip ∈ expiredIps s now ↔ ∃ ut, (ip, ut) ∈ s.blocked_ips ∧ ut ≤ now := by
  unfold expiredIps
  constructor
  · intro hm
    rcases List.mem_map.mp hm with ⟨p, hp, hip⟩
    rcases List.mem_filter.mp hp with ⟨hpb, hple⟩
    refine ⟨p.2, ?_, by simpa using hple⟩
    rw [← hip]
    exact hpb
  · rintro ⟨ut, hmem, hle⟩
    exact List.mem_map.mpr ⟨(ip, ut), List.mem_filter.mpr ⟨hmem, by simpa using hle⟩, rfl⟩

/-- With distinct keys, an entry's key is among the expired keys iff
the entry itself is expired. -/
theorem mem_expiredIps_iff_of_nodup {s : RLState} {now : ℤ} {p : Ip × ℤ}
    (hkeys : (s.blocked_ips.map Prod.fst).Nodup) (hp : p ∈ s.blocked_ips) :
    p.1 ∈ expiredIps s now ↔ p.2 ≤ now := by
  constructor
  · intro hm
    rcases mem_expiredIps.mp hm with ⟨ut, hmem, hle⟩
    have heq : (p.1, ut) = p := key_inj hkeys hmem hp rfl
    have : ut = p.2 := congrArg Prod.snd heq
    omega
  · intro hle
    exact mem_expiredIps.mpr ⟨p.2, hp, hle⟩

/-- With distinct keys, the expiry phase of the sweep keeps exactly
the entries with `now < unblock_time`, in order. -/
theorem expiry_phase_eq_survivors {s : RLState} {now : ℤ}
    (hkeys : (s.blocked_ips.map Prod.fst).Nodup) :
    (expiredIps s now).foldl dictDel s.blocked_ips = survivors s now := by
  rw [foldl_dictDel_eq_filter]
  refine List.filter_congr ?_
  intro p hp
  have hiff := @mem_expiredIps_iff_of_nodup s now p hkeys hp
  by_cases hle : p.2 ≤ now
  · simp [hle, hiff.mpr hle]
  · have hni : p.1 ∉ expiredIps s now := fun hm => hle (hiff.mp hm)
    simp [hle, hni]

/-- C10: an entry evicted by the capacity phase of a sweep (present,
unexpired, yet absent afterwards) keeps its failure count and
last-failure time; consequently, if its count still reaches
`max_failed_attempts`, one further `record_failed_attempt` within
`block_duration` of its last failure immediately re-blocks it until
`now + block_duration`, returning "newly blocked". -/
theorem c10_capacity_eviction_frame_reblock (cfg : RLConfig) (s : RLState)
    (ip : Ip) (ut now : ℤ)
    (hkeys : (s.blocked_ips.map Prod.fst).Nodup)
    (hrun : cleanup_interval ≤ now - s.last_cleanup)
    (hmem : (ip, ut) ∈ s.blocked_ips)
    (hlive : now < ut)
    (hevict : dictGet (cleanup_expired cfg s now).blocked_ips ip = none) :
    (cleanup_expired cfg s now).failed_attempts ip = s.failed_attempts ip ∧
    (cleanup_expired cfg s now).last_failed_time ip = s.last_failed_time ip ∧
    (∀ t2 lt : ℤ, s.last_failed_time ip = some lt → t2 - lt ≤ cfg.block_duration →
      cfg.max_failed_attempts ≤ s.failed_attempts ip →
      (record_failed_attempt cfg (cleanup_expired cfg s now) ip t2).2 = true ∧
      dictGet (record_failed_attempt cfg (cleanup_expired cfg s now) ip t2).1.blocked_ips ip
        = some (t2 + cfg.block_duration)) := by
  have hguard : ¬ now - s.last_cleanup < cleanup_interval := not_lt.mpr hrun
  have hnotexp : ip ∉ expiredIps s now := by
    intro hm
    rcases mem_expiredIps.mp hm with ⟨ut', hmem', hle⟩
    have heq : (ip, ut') = (ip, ut) := key_inj hkeys hmem' hmem rfl
    have : ut' = ut := congrArg Prod.snd heq
    omega
  rw [cleanup_expired_sweep cfg s now hguard] at hevict ⊢
  have hfa : (sweepState cfg s now).failed_attempts ip = s.failed_attempts ip := by
    show (if ip ∈ expiredIps s now then 0 else s.failed_attempts ip) = s.failed_attempts ip
    rw [if_neg hnotexp]
  have hlf : (sweepState cfg s now).last_failed_time ip = s.last_failed_time ip := by
    show (if ip ∈ expiredIps s now then none else s.last_failed_time ip) = s.last_failed_time ip
    rw [if_neg hnotexp]
  refine ⟨hfa, hlf, ?_⟩
  intro t2 lt hlt hwithin hcount
  rw [record_failed_attempt_eq]
  have hprev : recPrev cfg (sweepState cfg s now) ip t2 = s.failed_attempts ip := by
    rw [recPrev_some _ _ _ _ lt (hlf.trans hlt)]
    rw [if_neg (not_lt.mpr hwithin)]
    exact hfa
  rw [hprev]
  have hth : cfg.max_failed_attempts ≤ s.failed_attempts ip + 1 :=
    le_trans hcount (Nat.le_succ _)
  rw [if_pos hth, decide_eq_true hth]
  exact ⟨rfl, dictGet_dictSet_self hevict⟩

/-- Witness for C10 on the reachable two-entry state: at time 61 the
sweep evicts `"a"` (blocked until 101, the smaller remaining time,
capacity 1); its count 1 and last failure at time 1 survive, and a
new failure at time 62 (61 ≤ block_duration = 100 after the last
failure) re-blocks it until 162. -/
theorem c10_capacity_eviction_frame_reblock_witness :
    ((twoBlockedState.blocked_ips.map Prod.fst).Nodup ∧
     cleanup_interval ≤ (61:ℤ) - twoBlockedState.last_cleanup ∧
     (ipA, (101:ℤ)) ∈ twoBlockedState.blocked_ips ∧
     ((61:ℤ) < 101) ∧
     dictGet (cleanup_expired rlCfgSmall twoBlockedState 61).blocked_ips ipA = none) ∧
    ((cleanup_expired rlCfgSmall twoBlockedState 61).failed_attempts ipA
        = twoBlockedState.failed_attempts ipA ∧
     (cleanup_expired rlCfgSmall twoBlockedState 61).last_failed_time ipA
        = twoBlockedState.last_failed_time ipA ∧
     (∀ t2 lt : ℤ, twoBlockedState.last_failed_time ipA = some lt →
        t2 - lt ≤ rlCfgSmall.block_duration →
        rlCfgSmall.max_failed_attempts ≤ twoBlockedState.failed_attempts ipA →
        (record_failed_attempt rlCfgSmall
            (cleanup_expired rlCfgSmall twoBlockedState 61) ipA t2).2 = true ∧
        dictGet (record_failed_attempt rlCfgSmall
            (cleanup_expired rlCfgSmall twoBlockedState 61) ipA t2).1.blocked_ips ipA
          = some (t2 + rlCfgSmall.block_duration))) :=
  ⟨⟨by decide, by decide, by decide, by decide, by decide⟩,
    c10_capacity_eviction_frame_reblock rlCfgSmall twoBlockedState ipA 101 61
      (by decide) (by decide) (by decide) (by decide) (by decide)⟩

/-- The capacity phase does nothing when the dictionary fits. -/
theorem capacityPhase_eq_of_le {cfg : RLConfig} {d : List (Ip × ℤ)}
    (hle : d.length ≤ cfg.max_blocked_ips) : capacityPhase cfg d = d := by
  unfold capacityPhase
  rw [if_neg (not_lt.mpr hle)]

theorem capacityPhase_subset {cfg : RLConfig} {d : List (Ip × ℤ)} :
    capacityPhase cfg d ⊆ d := by
  unfold capacityPhase
  split
  · rw [foldl_dictDel_eq_filter]
    exact (List.filter_sublist _).subset
  · exact fun a ha => ha

/-- Over capacity, the kept entries are a permutation of the sorted
list with its first `len - max_blocked_ips` elements removed. -/
theorem capacityPhase_perm_of_gt {cfg : RLConfig} {d : List (Ip × ℤ)}
    (hkeys : (d.map Prod.fst).Nodup) (hgt : cfg.max_blocked_ips < d.length) :
    (capacityPhase cfg d).Perm
      ((List.insertionSort byUnblockTime d).drop (d.length - cfg.max_blocked_ips)) := by
  unfold capacityPhase
  rw [if_pos hgt, foldl_dictDel_eq_filter]
  set srt := List.insertionSort byUnblockTime d with hsrt
  set k := d.length - cfg.max_blocked_ips with hk
  set ks := (srt.take k).map Prod.fst with hks
  have hperm : srt.Perm d := List.perm_insertionSort _ d
  have hkeys_srt : (srt.map Prod.fst).Nodup := ((hperm.map Prod.fst).nodup_iff).mpr hkeys
  have hnd_srt : srt.Nodup := List.Nodup.of_map _ hkeys_srt
  have h3 : (srt.take k).filter (fun p => decide (p.1 ∉ ks)) = [] := by
    rw [List.filter_eq_nil_iff]
    intro p hp
    simp only [decide_eq_true_eq, not_not]
    rw [hks]
    exact List.mem_map_of_mem _ hp
  have hdisj : ∀ p ∈ srt.drop k, p.1 ∉ ks := by
    intro p hp hmem
    rw [hks] at hmem
    rcases List.mem_map.mp hmem with ⟨q, hq, hqp⟩
    have hps : p ∈ srt := List.mem_of_mem_drop hp
    have hqs : q ∈ srt := List.mem_of_mem_take hq
    have hqe : q = p := key_inj hkeys_srt hqs hps hqp
    have hnd2 : (srt.take k ++ srt.drop k).Nodup := by
      rw [List.take_append_drop]
      exact hnd_srt
    exact (List.nodup_append.mp hnd2).2.2 (hqe ▸ hq) hp
  have h4 : (srt.drop k).filter (fun p => decide (p.1 ∉ ks)) = srt.drop k := by
    rw [List.filter_eq_self]
    intro p hp
    exact decide_eq_true (hdisj p hp)
  have hstep : srt.filter (fun p => decide (p.1 ∉ ks)) = srt.drop k := by
    conv_lhs => rw [← List.take_append_drop k srt]
    rw [List.filter_append, h3, h4, List.nil_append]
  have hfin := hperm.symm.filter (fun p => decide (p.1 ∉ ks))
  rw [hstep] at hfin
  exact hfin

/-- After the capacity phase at most `max_blocked_ips` entries remain. -/
theorem capacityPhase_length_le {cfg : RLConfig} {d : List (Ip × ℤ)}
    (hkeys : (d.map Prod.fst).Nodup) :
    (capacityPhase cfg d).length ≤ cfg.max_blocked_ips := by
  by_cases h : d.length ≤ cfg.max_blocked_ips
  · rw [capacityPhase_eq_of_le h]
    exact h
  · have hgt : cfg.max_blocked_ips < d.length := lt_of_not_le h
    have hlen := (capacityPhase_perm_of_gt hkeys hgt).length_eq
    rw [List.length_drop] at hlen
    have hsl : (List.insertionSort byUnblockTime d).length = d.length :=
      (List.perm_insertionSort _ d).length_eq
    omega

/-- Over capacity, exactly `max_blocked_ips` entries remain. -/
theorem capacityPhase_length_of_gt {cfg : RLConfig} {d : List (Ip × ℤ)}
    (hkeys : (d.map Prod.fst).Nodup) (hgt : cfg.max_blocked_ips < d.length) :
    (capacityPhase cfg d).length = cfg.max_blocked_ips := by
  have hlen := (capacityPhase_perm_of_gt hkeys hgt).length_eq
  rw [List.length_drop] at hlen
  have hsl : (List.insertionSort byUnblockTime d).length = d.length :=
    (List.perm_insertionSort _ d).length_eq
  omega

/-- Every entry the capacity phase evicts has an `unblock_time` at
most that of every entry it keeps (smallest remaining time first). -/
theorem capacityPhase_evicted_le {cfg : RLConfig} {d : List (Ip × ℤ)}
    (hkeys : (d.map Prod.fst).Nodup) (hgt : cfg.max_blocked_ips < d.length) :
    ∀ p ∈ d, p ∉ capacityPhase cfg d → ∀ q ∈ capacityPhase cfg d, p.2 ≤ q.2 := by
  intro p hpd hpn q hq
  set srt := List.insertionSort byUnblockTime d with hsrt
  set k := d.length - cfg.max_blocked_ips with hk
  have hperm : srt.Perm d := List.perm_insertionSort _ d
  have hkeys_srt : (srt.map Prod.fst).Nodup := ((hperm.map Prod.fst).nodup_iff).mpr hkeys
  have hcp : capacityPhase cfg d
      = d.filter (fun p => decide (p.1 ∉ (srt.take k).map Prod.fst)) := by
    unfold capacityPhase
    rw [if_pos hgt, foldl_dictDel_eq_filter]
  have hPp : ¬ (decide (p.1 ∉ (srt.take k).map Prod.fst) = true) := by
    intro hP
    exact hpn (hcp ▸ List.mem_filter.mpr ⟨hpd, hP⟩)
  have hpk : p.1 ∈ (srt.take k).map Prod.fst := by simpa using hPp
  rcases List.mem_map.mp hpk with ⟨o, ho, hop⟩
  have hps : p ∈ srt := hperm.mem_iff.mpr hpd
  have hos : o ∈ srt := List.mem_of_mem_take ho
  have hoe : o = p := key_inj hkeys_srt hos hps hop
  have hptake : p ∈ srt.take k := hoe ▸ ho
  have hqdrop : q ∈ srt.drop k := (capacityPhase_perm_of_gt hkeys hgt).mem_iff.mp hq
  have hsorted : List.Pairwise byUnblockTime srt := List.sorted_insertionSort byUnblockTime d
  rw [← List.take_append_drop k srt] at hsorted
  exact (List.pairwise_append.mp hsorted).2.2 p hptake q hqdrop

/-- The keys of the surviving entries stay duplicate-free. -/
theorem survivors_keys_nodup {s : RLState} {now : ℤ}
    (hkeys : (s.blocked_ips.map Prod.fst).Nodup) :
    ((survivors s now).map Prod.fst).Nodup :=
  ((List.filter_sublist _).map Prod.fst).nodup hkeys

/-- With distinct keys the sweep's dictionary is the capacity phase
applied to the surviving entries. -/
theorem sweepBlocked_eq {cfg : RLConfig} {s : RLState} {now : ℤ}
    (hkeys : (s.blocked_ips.map Prod.fst).Nodup) :
    sweepBlocked cfg s now = capacityPhase cfg (survivors s now) := by
  unfold sweepBlocked
  rw [expiry_phase_eq_survivors hkeys]

/-- C3: a `cleanup_expired` call that performs its sweep (at least
`cleanup_interval` since the last one) (i) removes every expired block
entry (`unblock_time ≤ now`) and resets that IP's failure count and
last-failure time; then (ii) if the surviving entries fit within
`max_blocked_ips` they are kept unchanged, and (iii) otherwise
exactly `max_blocked_ips` entries remain, all of them survivors, and
every evicted survivor's `unblock_time` is at most that of every kept
entry — eviction in ascending remaining time-to-unblock, protecting
the longest-remaining bans. -/
theorem c3_cleanup_sweep_spec (cfg : RLConfig) (s : RLState) (now : ℤ)
    (hkeys : (s.blocked_ips.map Prod.fst).Nodup)
    (hrun : cleanup_interval ≤ now - s.last_cleanup) :
    (∀ ip ut, (ip, ut) ∈ s.blocked_ips → ut ≤ now →
      dictGet (cleanup_expired cfg s now).blocked_ips ip = none ∧
      (cleanup_expired cfg s now).failed_attempts ip = 0 ∧
      (cleanup_expired cfg s now).last_failed_time ip = none) ∧
    ((survivors s now).length ≤ cfg.max_blocked_ips →
      (cleanup_expired cfg s now).blocked_ips = survivors s now) ∧
    (cfg.max_blocked_ips < (survivors s now).length →
      (cleanup_expired cfg s now).blocked_ips.length = cfg.max_blocked_ips ∧
      (cleanup_expired cfg s now).blocked_ips ⊆ survivors s now ∧
      (∀ p ∈ survivors s now, p ∉ (cleanup_expired cfg s now).blocked_ips →
        ∀ q ∈ (cleanup_expired cfg s now).blocked_ips, p.2 ≤ q.2)) := by
  have hguard : ¬ now - s.last_cleanup < cleanup_interval := not_lt.mpr hrun
  rw [cleanup_expired_sweep cfg s now hguard]
  have hbk : (sweepState cfg s now).blocked_ips = capacityPhase cfg (survivors s now) :=
    sweepBlocked_eq hkeys
  rw [hbk]
  have hsvk := @survivors_keys_nodup s now hkeys
  refine ⟨?_, ?_, ?_⟩
  · intro ip ut hmem hle
    have hexp : ip ∈ expiredIps s now := mem_expiredIps.mpr ⟨ut, hmem, hle⟩
    refine ⟨?_, ?_, ?_⟩
    · rw [dictGet_eq_none_iff]
      intro p hp hpip
      have hpsv : p ∈ survivors s now := capacityPhase_subset hp
      rcases List.mem_filter.mp hpsv with ⟨hpb, hplt⟩
      have hnow : ¬ p.2 ≤ now := by simpa using hplt
      have heq : p = (ip, ut) := key_inj hkeys hpb hmem hpip
      rw [heq] at hnow
      exact hnow hle
    · show (if ip ∈ expiredIps s now then 0 else s.failed_attempts ip) = 0
      rw [if_pos hexp]
    · show (if ip ∈ expiredIps s now then none else s.last_failed_time ip) = (none : Option ℤ)
      rw [if_pos hexp]
  · intro hle
    exact capacityPhase_eq_of_le hle
  · intro hgt
    exact ⟨capacityPhase_length_of_gt hsvk hgt, capacityPhase_subset,
      capacityPhase_evicted_le hsvk hgt⟩

/-- Witness for C3 at the concrete three-entry state (`"a"` expired,
`"b"`, `"c"` live, `max_blocked_ips = 1`, sweep at time 61). -/
theorem c3_cleanup_sweep_spec_witness :
    ((c3state.blocked_ips.map Prod.fst).Nodup ∧
     cleanup_interval ≤ (61:ℤ) - c3state.last_cleanup) ∧
    ((∀ ip ut, (ip, ut) ∈ c3state.blocked_ips → ut ≤ (61:ℤ) →
      dictGet (cleanup_expired rlCfgSmall c3state 61).blocked_ips ip = none ∧
      (cleanup_expired rlCfgSmall c3state 61).failed_attempts ip = 0 ∧
      (cleanup_expired rlCfgSmall c3state 61).last_failed_time ip = none) ∧
    ((survivors c3state 61).length ≤ rlCfgSmall.max_blocked_ips →
      (cleanup_expired rlCfgSmall c3state 61).blocked_ips = survivors c3state 61) ∧
    (rlCfgSmall.max_blocked_ips < (survivors c3state 61).length →
      (cleanup_expired rlCfgSmall c3state 61).blocked_ips.length = rlCfgSmall.max_blocked_ips ∧
      (cleanup_expired rlCfgSmall c3state 61).blocked_ips ⊆ survivors c3state 61 ∧
      (∀ p ∈ survivors c3state 61, p ∉ (cleanup_expired rlCfgSmall c3state 61).blocked_ips →
        ∀ q ∈ (cleanup_expired rlCfgSmall c3state 61).blocked_ips, p.2 ≤ q.2))) :=
  ⟨⟨by decide, by decide⟩,
    c3_cleanup_sweep_spec rlCfgSmall c3state 61 (by decide) (by decide)⟩

/-- Invariant of `record_failed_attempt` sequences: `last_cleanup`
never changes, block-entry keys stay duplicate-free, and — provided
`block_duration ≥ 0` and every insertion happens at or after time `c`
— every block entry's `unblock_time` is at least `c`. -/
theorem runRecords_inv (cfg : RLConfig) (evs : List (Ip × ℤ)) (s : RLState) (c : ℤ)
    (hdur : 0 ≤ cfg.block_duration)
    (hlc : s.last_cleanup = c)
    (hkeys : (s.blocked_ips.map Prod.fst).Nodup)
    (hblk : ∀ p ∈ s.blocked_ips, c ≤ p.2)
    (hevs : ∀ e ∈ evs, c ≤ e.2) :
    (runRecords cfg s evs).last_cleanup = c ∧
    ((runRecords cfg s evs).blocked_ips.map Prod.fst).Nodup ∧
    ∀ p ∈ (runRecords cfg s evs).blocked_ips, c ≤ p.2 := by
  induction evs generalizing s with
  | nil => exact ⟨hlc, hkeys, hblk⟩
  | cons e es ih =>
    simp only [runRecords]
    rw [record_failed_attempt_eq]
    by_cases hth : cfg.max_failed_attempts ≤ recPrev cfg s e.1 e.2 + 1
    · rw [if_pos hth]
      refine ih _ hlc (dictSet_keys_nodup hkeys) ?_
        (fun x hx => hevs x (List.mem_cons_of_mem _ hx))
      intro p hp
      rcases mem_dictSet hp with hp | hp
      · exact hblk p hp
      · rw [hp]
        have := hevs e (List.mem_cons_self _ _)
        omega
    · rw [if_neg hth]
      exact ih _ hlc hkeys hblk (fun x hx => hevs x (List.mem_cons_of_mem _ hx))

/-- A rate-limited `cleanup_expired` call is a no-op. -/
theorem cleanup_expired_ratelimited (cfg : RLConfig) (s : RLState) (now : ℤ)
    (h : now - s.last_cleanup < cleanup_interval) :
    cleanup_expired cfg s now = s := by
  unfold cleanup_expired
  rw [if_pos h]

/-- C2 (amended): after any sequence of `record_failed_attempt`
insertions into a fresh limiter (insertions at or after construction
time `t0`, nonnegative `block_duration`), a `cleanup_expired` call at
time `now` leaves no block entry with `unblock_time` more than one
`cleanup_interval` in the past; and when the call actually performs
its sweep (at least `cleanup_interval` since the last one — here,
since construction), it also leaves `|blocked_ips| ≤ max_blocked_ips`.
The unamended size bound fails for rate-limited calls
(see the counterexample). -/
theorem c2_cleanup_bound_amended (cfg : RLConfig) (t0 now : ℤ) (evs : List (Ip × ℤ))
    (hdur : 0 ≤ cfg.block_duration)
    (hevs : ∀ e ∈ evs, t0 ≤ e.2) :
    (∀ p ∈ (cleanup_expired cfg (runRecords cfg (initState t0) evs) now).blocked_ips,
      now - p.2 ≤ cleanup_interval) ∧
    (cleanup_interval ≤ now - t0 →
      (cleanup_expired cfg (runRecords cfg (initState t0) evs) now).blocked_ips.length
        ≤ cfg.max_blocked_ips) := by
  obtain ⟨hlc, hkeys, hblk⟩ :=
    runRecords_inv cfg evs (initState t0) t0 hdur rfl (by simp [initState])
      (by simp [initState]) hevs
  have hci : cleanup_interval = 60 := rfl
  by_cases hsw : now - (runRecords cfg (initState t0) evs).last_cleanup < cleanup_interval
  · rw [cleanup_expired_ratelimited _ _ _ hsw]
    rw [hlc, hci] at hsw
    constructor
    · intro p hp
      have := hblk p hp
      rw [hci]
      omega
    · intro habs
      rw [hci] at habs
      omega
  · rw [cleanup_expired_sweep _ _ _ hsw]
    have hbk : (sweepState cfg (runRecords cfg (initState t0) evs) now).blocked_ips
        = capacityPhase cfg (survivors (runRecords cfg (initState t0) evs) now) :=
      sweepBlocked_eq hkeys
    rw [hbk]
    constructor
    · intro p hp
      have hpsv : p ∈ survivors (runRecords cfg (initState t0) evs) now :=
        capacityPhase_subset hp
      rcases List.mem_filter.mp hpsv with ⟨_, hplt⟩
      have hnow : ¬ p.2 ≤ now := by simpa using hplt
      rw [hci]
      omega
    · intro _
      exact capacityPhase_length_le (survivors_keys_nodup hkeys)

/-- Witness for C2's amended theorem: two insertions at times 1 and 2
into a fresh small-configuration limiter, cleanup at time 61 (a real
sweep: 61 ≥ 60). -/
theorem c2_cleanup_bound_amended_witness :
    ((0:ℤ) ≤ rlCfgSmall.block_duration ∧
     (∀ e ∈ [(ipA, (1:ℤ)), (ipB, 2)], (0:ℤ) ≤ e.2)) ∧
    ((∀ p ∈ (cleanup_expired rlCfgSmall
        (runRecords rlCfgSmall (initState 0) [(ipA, 1), (ipB, 2)]) 61).blocked_ips,
      (61:ℤ) - p.2 ≤ cleanup_interval) ∧
    (cleanup_interval ≤ (61:ℤ) - 0 →
      (cleanup_expired rlCfgSmall
        (runRecords rlCfgSmall (initState 0) [(ipA, 1), (ipB, 2)]) 61).blocked_ips.length
        ≤ rlCfgSmall.max_blocked_ips)) :=
  ⟨⟨by decide, by decide⟩,
    c2_cleanup_bound_amended rlCfgSmall 0 61 [(ipA, 1), (ipB, 2)] (by decide) (by decide)⟩

/-- The `blocked_ips` component of a sweeping `cleanup_expired`. -/
theorem cleanup_expired_blocked_sweep (cfg : RLConfig) (s : RLState) (now : ℤ)
    (h : ¬ now - s.last_cleanup < cleanup_interval) :
    (cleanup_expired cfg s now).blocked_ips = sweepBlocked cfg s now := by
  rw [cleanup_expired_sweep cfg s now h]
  rfl

/-- `is_blocked` when the post-cleanup entry is still active. -/
theorem is_blocked_active_case (cfg : RLConfig) (s : RLState) (ip : Ip) (now ut : ℤ)
    (hg : dictGet (cleanup_expired cfg s now).blocked_ips ip = some ut) (hlt : now < ut) :
    is_blocked cfg s ip now = (cleanup_expired cfg s now, true) := by
  simp only [is_blocked]
  rw [hg]
  exact if_pos hlt

/-- `is_blocked` when the post-cleanup entry has expired: the entry is
deleted and the failure state of `ip` reset. -/
theorem is_blocked_expired_case (cfg : RLConfig) (s : RLState) (ip : Ip) (now ut : ℤ)
    (hg : dictGet (cleanup_expired cfg s now).blocked_ips ip = some ut) (hle : ¬ now < ut) :
    is_blocked cfg s ip now
      = ({ cleanup_expired cfg s now with
            blocked_ips := dictDel (cleanup_expired cfg s now).blocked_ips ip
            failed_attempts := fun j =>
              if j = ip then 0 else (cleanup_expired cfg s now).failed_attempts j
            last_failed_time := fun j =>
              if j = ip then none else (cleanup_expired cfg s now).last_failed_time j },
          false) := by
  simp only [is_blocked]
  rw [hg]
  exact if_neg hle

/-- `is_blocked` when no post-cleanup entry exists. -/
theorem is_blocked_none_case (cfg : RLConfig) (s : RLState) (ip : Ip) (now : ℤ)
    (hg : dictGet (cleanup_expired cfg s now).blocked_ips ip = none) :
    is_blocked cfg s ip now = (cleanup_expired cfg s now, false) := by
  simp only [is_blocked]
  rw [hg]

theorem runRecords_append (cfg : RLConfig) (s : RLState)
    (es fs : List (Ip × ℤ)) :
    runRecords cfg s (es ++ fs) = runRecords cfg (runRecords cfg s es) fs := by
  induction es generalizing s with
  | nil => rfl
  | cons e es ih =>
    simp only [List.cons_append, runRecords]
    exact ih _

theorem dictGet_cons_self {k : Ip} {v : ℤ} {d : List (Ip × ℤ)} :
    dictGet ((k, v) :: d) k = some v := by
  unfold dictGet
  rw [List.find?_cons_of_pos _ (by simp)]
  rfl

theorem dictSet_nil {k : Ip} {v : ℤ} : dictSet [] k v = [(k, v)] := rfl

/-- C5: with the repository's configuration (`max_failed_attempts=5`,
`block_duration=6000`), five `record_failed_attempt("1.2.3.4")` calls
at one instant `t` (in particular within the same second): calls 1-4
return "not blocked", call 5 returns "newly blocked";
`is_blocked("1.2.3.4")` at `t` is then true, and `get_block_info`
reports `remaining_seconds = 6000`, within 1 second of 6000.  Both
limiter construction time `t0` and call time `t` are arbitrary. -/
theorem c5_five_failures_block_scenario (t0 t : ℤ) :
    (record_failed_attempt rlCfgSrc
      (runRecords rlCfgSrc (initState t0) (List.replicate 0 (ip0, t))) ip0 t).2 = false ∧
    (record_failed_attempt rlCfgSrc
      (runRecords rlCfgSrc (initState t0) (List.replicate 1 (ip0, t))) ip0 t).2 = false ∧
    (record_failed_attempt rlCfgSrc
      (runRecords rlCfgSrc (initState t0) (List.replicate 2 (ip0, t))) ip0 t).2 = false ∧
    (record_failed_attempt rlCfgSrc
      (runRecords rlCfgSrc (initState t0) (List.replicate 3 (ip0, t))) ip0 t).2 = false ∧
    (record_failed_attempt rlCfgSrc
      (runRecords rlCfgSrc (initState t0) (List.replicate 4 (ip0, t))) ip0 t).2 = true ∧
    (is_blocked rlCfgSrc
      (runRecords rlCfgSrc (initState t0) (List.replicate 5 (ip0, t))) ip0 t).2 = true ∧
    (get_block_info
      (runRecords rlCfgSrc (initState t0) (List.replicate 5 (ip0, t))) ip0 t).blocked = true ∧
    |(get_block_info (runRecords rlCfgSrc (initState t0) (List.replicate 5 (ip0, t)))
        ip0 t).remaining_seconds - 6000| ≤ 1 := by
  have hsucc : ∀ k : ℕ, runRecords rlCfgSrc (initState t0) (List.replicate (k + 1) (ip0, t))
      = (record_failed_attempt rlCfgSrc
          (runRecords rlCfgSrc (initState t0) (List.replicate k (ip0, t))) ip0 t).1 := by
    intro k
    rw [List.replicate_succ', runRecords_append]
    rfl
  have hdurn : rlCfgSrc.block_duration = 6000 := rfl
  have step : ∀ (k : ℕ) (n : ℕ),
      (runRecords rlCfgSrc (initState t0) (List.replicate k (ip0, t))).failed_attempts ip0 = n →
      (runRecords rlCfgSrc (initState t0) (List.replicate k (ip0, t))).last_failed_time ip0
        = some t →
      recPrev rlCfgSrc (runRecords rlCfgSrc (initState t0) (List.replicate k (ip0, t))) ip0 t
        = n := by
    intro k n hfa hlft
    rw [recPrev_some _ _ _ _ t hlft, if_neg (by rw [hdurn]; omega), hfa]
  have hprev0 : recPrev rlCfgSrc
      (runRecords rlCfgSrc (initState t0) (List.replicate 0 (ip0, t))) ip0 t = 0 :=
    (recPrev_none _ _ _ _ rfl).trans rfl
  have hfa1 : (runRecords rlCfgSrc (initState t0)
      (List.replicate 1 (ip0, t))).failed_attempts ip0 = 1 := by
    rw [hsucc 0, record_failed_attempt_eq, hprev0]
    simp
  have hlft1 : (runRecords rlCfgSrc (initState t0)
      (List.replicate 1 (ip0, t))).last_failed_time ip0 = some t := by
    rw [hsucc 0, record_failed_attempt_eq]
    simp
  have hblk1 : (runRecords rlCfgSrc (initState t0)
      (List.replicate 1 (ip0, t))).blocked_ips = [] := by
    rw [hsucc 0, record_failed_attempt_eq, hprev0, if_neg (by decide)]
    rfl
  have hp1 := step 1 1 hfa1 hlft1
  have hfa2 : (runRecords rlCfgSrc (initState t0)
      (List.replicate 2 (ip0, t))).failed_attempts ip0 = 2 := by
    rw [hsucc 1, record_failed_attempt_eq, hp1]
    simp
  have hlft2 : (runRecords rlCfgSrc (initState t0)
      (List.replicate 2 (ip0, t))).last_failed_time ip0 = some t := by
    rw [hsucc 1, record_failed_attempt_eq]
    simp
  have hblk2 : (runRecords rlCfgSrc (initState t0)
      (List.replicate 2 (ip0, t))).blocked_ips = [] := by
    rw [hsucc 1, record_failed_attempt_eq, hp1, if_neg (by decide)]
    exact hblk1
  have hp2 := step 2 2 hfa2 hlft2
  have hfa3 : (runRecords rlCfgSrc (initState t0)
      (List.replicate 3 (ip0, t))).failed_attempts ip0 = 3 := by
    rw [hsucc 2, record_failed_attempt_eq, hp2]
    simp
  have hlft3 : (runRecords rlCfgSrc (initState t0)
      (List.replicate 3 (ip0, t))).last_failed_time ip0 = some t := by
    rw [hsucc 2, record_failed_attempt_eq]
    simp
  have hblk3 : (runRecords rlCfgSrc (initState t0)
      (List.replicate 3 (ip0, t))).blocked_ips = [] := by
    rw [hsucc 2, record_failed_attempt_eq, hp2, if_neg (by decide)]
    exact hblk2
  have hp3 := step 3 3 hfa3 hlft3
  have hfa4 : (runRecords rlCfgSrc (initState t0)
      (List.replicate 4 (ip0, t))).failed_attempts ip0 = 4 := by
    rw [hsucc 3, record_failed_attempt_eq, hp3]
    simp
  have hlft4 : (runRecords rlCfgSrc (initState t0)
      (List.replicate 4 (ip0, t))).last_failed_time ip0 = some t := by
    rw [hsucc 3, record_failed_attempt_eq]
    simp
  have hblk4 : (runRecords rlCfgSrc (initState t0)
      (List.replicate 4 (ip0, t))).blocked_ips = [] := by
    rw [hsucc 3, record_failed_attempt_eq, hp3, if_neg (by decide)]
    exact hblk3
  have hp4 := step 4 4 hfa4 hlft4
  have hblk5 : (runRecords rlCfgSrc (initState t0)
      (List.replicate 5 (ip0, t))).blocked_ips = [(ip0, t + 6000)] := by
    rw [hsucc 4, record_failed_attempt_eq, hp4, if_pos (by decide), hblk4, dictSet_nil, hdurn]
  have hdg5 : dictGet (runRecords rlCfgSrc (initState t0)
      (List.replicate 5 (ip0, t))).blocked_ips ip0 = some (t + 6000) := by
    rw [hblk5]
    exact dictGet_cons_self
  have hcl : (cleanup_expired rlCfgSrc
      (runRecords rlCfgSrc (initState t0) (List.replicate 5 (ip0, t))) t).blocked_ips
      = [(ip0, t + 6000)] := by
    by_cases hsw : t - (runRecords rlCfgSrc (initState t0)
        (List.replicate 5 (ip0, t))).last_cleanup < cleanup_interval
    · rw [cleanup_expired_ratelimited _ _ _ hsw]
      exact hblk5
    · rw [cleanup_expired_blocked_sweep _ _ _ hsw]
      unfold sweepBlocked
      have hexp : expiredIps (runRecords rlCfgSrc (initState t0)
          (List.replicate 5 (ip0, t))) t = [] := by
        unfold expiredIps
        rw [hblk5]
        have hnle : ¬ (t + 6000 ≤ t) := by omega
        simp [hnle]
      rw [hexp]
      simp only [List.foldl_nil]
      rw [hblk5]
      rw [capacityPhase_eq_of_le
        (by rw [List.length_cons, List.length_nil, show rlCfgSrc.max_blocked_ips = 1000 from rfl]
            omega)]
  have hib : (is_blocked rlCfgSrc
      (runRecords rlCfgSrc (initState t0) (List.replicate 5 (ip0, t))) ip0 t).2 = true := by
    have hdg : dictGet (cleanup_expired rlCfgSrc
        (runRecords rlCfgSrc (initState t0) (List.replicate 5 (ip0, t))) t).blocked_ips ip0
        = some (t + 6000) := by
      rw [hcl]
      exact dictGet_cons_self
    rw [is_blocked_active_case _ _ _ _ _ hdg (by omega : t < t + 6000)]
  have hgb : get_block_info
      (runRecords rlCfgSrc (initState t0) (List.replicate 5 (ip0, t))) ip0 t
      = ⟨true, 6000⟩ := by
    unfold get_block_info
    rw [hdg5]
    show ({ blocked := true, remaining_seconds := max 0 (t + 6000 - t) } : BlockInfo) = ⟨true, 6000⟩
    have h6 : t + 6000 - t = (6000:ℤ) := by omega
    rw [h6]
    norm_num
  refine ⟨?_, ?_, ?_, ?_, ?_, hib, by rw [hgb], by rw [hgb]; norm_num⟩
  · rw [record_failed_attempt_eq, hprev0]
    show decide (rlCfgSrc.max_failed_attempts ≤ 0 + 1) = false
    decide
  · rw [record_failed_attempt_eq, hp1]
    show decide (rlCfgSrc.max_failed_attempts ≤ 1 + 1) = false
    decide
  · rw [record_failed_attempt_eq, hp2]
    show decide (rlCfgSrc.max_failed_attempts ≤ 2 + 1) = false
    decide
  · rw [record_failed_attempt_eq, hp3]
    show decide (rlCfgSrc.max_failed_attempts ≤ 3 + 1) = false
    decide
  · rw [record_failed_attempt_eq, hp4]
    show decide (rlCfgSrc.max_failed_attempts ≤ 4 + 1) = true
    decide

theorem dictGet_dictDel_self {d : List (Ip × ℤ)} {k : Ip} :
    dictGet (dictDel d k) k = none := by
  rw [dictGet_eq_none_iff]
  intro p hp
  have hm := List.mem_filter.mp hp
  simpa using hm.2

/-- C7 (amended): `is_blocked(ip)` first runs the rate-limited cleanup
sweep; it returns true exactly when a block entry for `ip` SURVIVES
that sweep with `unblock_time` strictly in the future (the sweep's
capacity eviction can remove a not-yet-expired entry, so the pre-call
dictionary alone does not determine the answer — see the
counterexample); if the surviving entry has expired, `is_blocked`
deletes it, resets the IP's failure count and last-failure time, and
returns false; if no entry survives, it returns false with no state
change beyond the sweep. -/
theorem c7_is_blocked_spec_amended (cfg : RLConfig) (s : RLState) (ip : Ip) (now : ℤ) :
    ((is_blocked cfg s ip now).2 = true ↔
      ∃ ut, dictGet (cleanup_expired cfg s now).blocked_ips ip = some ut ∧ now < ut) ∧
    (∀ ut, dictGet (cleanup_expired cfg s now).blocked_ips ip = some ut → ut ≤ now →
      (is_blocked cfg s ip now).2 = false ∧
      dictGet (is_blocked cfg s ip now).1.blocked_ips ip = none ∧
      (is_blocked cfg s ip now).1.failed_attempts ip = 0 ∧
      (is_blocked cfg s ip now).1.last_failed_time ip = none) ∧
    (dictGet (cleanup_expired cfg s now).blocked_ips ip = none →
      is_blocked cfg s ip now = (cleanup_expired cfg s now, false)) := by
  cases hg : dictGet (cleanup_expired cfg s now).blocked_ips ip with
  | none =>
    have hib := is_blocked_none_case cfg s ip now hg
    refine ⟨?_, ?_, fun _ => hib⟩
    · rw [hib]
      constructor
      · intro h
        exact absurd h (by simp)
      · rintro ⟨ut, hut, _⟩
        cases hut
    · intro ut hut
      cases hut
  | some ut =>
    by_cases hlt : now < ut
    · have hib := is_blocked_active_case cfg s ip now ut hg hlt
      refine ⟨?_, ?_, ?_⟩
      · rw [hib]
        exact ⟨fun _ => ⟨ut, rfl, hlt⟩, fun _ => rfl⟩
      · intro ut' hut' hle
        obtain rfl : ut = ut' := Option.some.inj hut'
        exact absurd hle (not_le.mpr hlt)
      · intro hnone
        cases hnone
    · have hib := is_blocked_expired_case cfg s ip now ut hg hlt
      refine ⟨?_, ?_, ?_⟩
      · rw [hib]
        constructor
        · intro h
          exact absurd h (by simp)
        · rintro ⟨ut', hut', hlt'⟩
          obtain rfl : ut = ut' := Option.some.inj hut'
          exact absurd hlt' hlt
      · intro ut' hut' hle
        rw [hib]
        refine ⟨rfl, dictGet_dictDel_self, by simp, by simp⟩
      · intro hnone
        cases hnone
